import Mathlib

/-!
Verification of the merge-and-parse core of the Executive Summary Analyzer
(src/exec-summary-analyzer.py).

Python strings are embedded as lists of characters (`PyStr`), so that every
operation is structurally recursive and kernel-computable.  Confidence scores
are embedded as rationals.  The three components modelled are:

* `merge_extractions` — the multi-chunk extraction merge (`_merge_extractions`
  composed with the field readback in `extract_information`);
* `parse_report_sections` — the keyword-trigger section parser
  (`_parse_report_sections`);
* `extract_information` / `generate_report` / `analyze` — the orchestrator
  control flow, with the LLM, text-splitting and info-dump collaborators
  passed in as function parameters.
-/

namespace ExecSummary

/-- Python strings, embedded as lists of characters. -/
abbrev PyStr := List Char

/-- Python `s.lower()` (character-wise lowering). -/
def pyLower (s : PyStr) : PyStr := s.map Char.toLower

/-- Prefix test on character lists. -/
def isPrefixL : PyStr → PyStr → Bool
  | [], _ => true
  | _ :: _, [] => false
  | p :: ps, c :: cs => p == c && isPrefixL ps cs

/-- Python substring test `pat in s`. -/
def containsSub (pat : PyStr) : PyStr → Bool
  | [] => isPrefixL pat []
  | c :: rest => isPrefixL pat (c :: rest) || containsSub pat rest

/-- Python `s.strip()`: drop leading and trailing whitespace. -/
def pyStrip (s : PyStr) : PyStr :=
  ((s.dropWhile Char.isWhitespace).reverse.dropWhile Char.isWhitespace).reverse

/-- Python `s.split('\n')`. -/
def pySplitLines : PyStr → List PyStr
  | [] => [[]]
  | c :: rest =>
    match pySplitLines rest with
    | [] => [[c]]
    | h :: t => if c = '\x0a' then [] :: h :: t else (c :: h) :: t

/-- The sentinel string used for a field with no accepted candidate. -/
def sentinel : PyStr := "Information not provided in the document.".data

/-- The case-insensitive filter substring of the merge. -/
def notProvidedPat : PyStr := "not provided".data

/-- The eleven extraction fields of the analyzer. -/
inductive Field
  | company_name
  | technology_type
  | need_addressed
  | market_size
  | market_calculation_method
  | product_development_stage
  | current_sales
  | exit_value_range
  | years_to_exit
  | investment_needed
  | missing_skills
deriving DecidableEq, Fintype

/-- One LLM extraction result: a partial map from field to value plus a partial
map from field to confidence (a missing confidence map is the everywhere-`none`
map, which the code reads identically to an empty dict). -/
structure Extraction where
  values : Field → Option PyStr
  confidence_scores : Field → Option ℚ

/-- The constant one half, in kernel-computable constructor form. -/
def half : ℚ := ⟨1, 2, by decide, by decide⟩

/-- Confidence lookup of the merge loop:
`extraction.get('confidence_scores', \x7b\x7d).get(field, 0.5)`. -/
def confLookup (e : Extraction) (f : Field) : ℚ :=
  (e.confidence_scores f).getD half

/-- Python truthiness plus filter:
`value and "not provided" not in value.lower()`. -/
def acceptableValue : Option PyStr → Bool
  | none => false
  | some s => !(s == []) && !(containsSub notProvidedPat (pyLower s))

/-- Body of the inner loop of `_merge_extractions`: fold one extraction into
the running `(best_value, best_confidence)` pair for field `f`. -/
def mergeStep (f : Field) (best : Option PyStr × ℚ) (e : Extraction) :
    Option PyStr × ℚ :=
  if acceptableValue (e.values f) ∧ best.2 < confLookup e f then
    (e.values f, confLookup e f)
  else best

/-- The per-field scan of `_merge_extractions`, starting from
`best_value = None`, `best_confidence = 0`. -/
def mergeBest (f : Field) (extractions : List Extraction) : Option PyStr × ℚ :=
  extractions.foldl (mergeStep f) (none, 0)

/-- Python `best_value or default` for an optional string. -/
def pyOr (v : Option PyStr) (d : PyStr) : PyStr :=
  match v with
  | some s => if s = [] then d else s
  | none => d

/-- The merge: `_merge_extractions` composed with the per-field readback
performed by `extract_information` (a missing dict key reads as `none`).
Empty input yields the empty dict; a single result is passed through; two or
more results run the per-field scan. -/
def merge_extractions : List Extraction → Extraction
  | [] => ⟨fun _ => none, fun _ => none⟩
  | [e] => e
  | es@(_ :: _ :: _) =>
      ⟨fun f => some (pyOr (mergeBest f es).1 sentinel),
       fun f => some (mergeBest f es).2⟩

/-- Modelled from the claim wording: the per-field scan in which a candidate
whose confidence entry is absent is read with the stated default `d`
(the claims state the default as 0; the code uses 0.5). -/
def claimMergeStep (d : ℚ) (f : Field) (best : Option PyStr × ℚ)
    (e : Extraction) : Option PyStr × ℚ :=
  if acceptableValue (e.values f) ∧ best.2 < (e.confidence_scores f).getD d then
    (e.values f, (e.confidence_scores f).getD d)
  else best

/-- Modelled from the claim wording: scan all results in order with initial
best `(None, 0)` and default confidence `d`. -/
def claimMergeBest (d : ℚ) (f : Field) (rs : List Extraction) :
    Option PyStr × ℚ :=
  rs.foldl (claimMergeStep d f) (none, 0)

/-- The four report sections. -/
inductive SectionKey
  | nature_and_state
  | market_need_and_size
  | roi_elements
  | management_team_strength
deriving DecidableEq

/-- Accumulated text of the four report sections. -/
structure Sections where
  nature_and_state : PyStr
  market_need_and_size : PyStr
  roi_elements : PyStr
  management_team_strength : PyStr
deriving DecidableEq

/-- All four sections empty. -/
def emptySections : Sections := ⟨[], [], [], []⟩

/-- Append text to the named section. -/
def appendSec (s : Sections) (k : SectionKey) (t : PyStr) : Sections :=
  match k with
  | .nature_and_state => { s with nature_and_state := s.nature_and_state ++ t }
  | .market_need_and_size =>
      { s with market_need_and_size := s.market_need_and_size ++ t }
  | .roi_elements => { s with roi_elements := s.roi_elements ++ t }
  | .management_team_strength =>
      { s with management_team_strength := s.management_team_strength ++ t }

/-- Trigger substring for the nature-and-state section. -/
def trigNature : PyStr := "nature and state".data

/-- Trigger substring for the market-need section. -/
def trigMarket : PyStr := "market need".data

/-- Trigger substring for the ROI section. -/
def trigRoi : PyStr := "roi".data

/-- Trigger substring for the management section. -/
def trigManagement : PyStr := "management".data

/-- Header detection of `_parse_report_sections`: the four trigger substrings
tested against the lowered line, in the fixed source order. -/
def findTrigger (lowerLine : PyStr) : Option SectionKey :=
  if containsSub trigNature lowerLine then some SectionKey.nature_and_state
  else if containsSub trigMarket lowerLine then
    some SectionKey.market_need_and_size
  else if containsSub trigRoi lowerLine then some SectionKey.roi_elements
  else if containsSub trigManagement lowerLine then
    some SectionKey.management_team_strength
  else none

/-- Loop body of `_parse_report_sections`: update the current-section pointer
on a trigger match, then append the line (plus newline) to the current section
when the pointer is set, the stripped line is non-empty, and the line matched
no trigger. -/
def parseStep (st : Option SectionKey × Sections) (line : PyStr) :
    Option SectionKey × Sections :=
  let lowerLine := pyLower line
  let cur : Option SectionKey :=
    match findTrigger lowerLine with
    | some k => some k
    | none => st.1
  match cur with
  | some k =>
      if pyStrip line ≠ [] ∧ findTrigger lowerLine = none then
        (some k, appendSec st.2 k (line ++ ['\x0a']))
      else (some k, st.2)
  | none => (none, st.2)

/-- Final whitespace trim of each accumulated section. -/
def stripSections (s : Sections) : Sections :=
  ⟨pyStrip s.nature_and_state, pyStrip s.market_need_and_size,
   pyStrip s.roi_elements, pyStrip s.management_team_strength⟩

/-- The section parser `_parse_report_sections`: split on newlines, fold the
line loop from an unset pointer and empty sections, then strip each section. -/
def parse_report_sections (reportText : PyStr) : Sections :=
  stripSections ((pySplitLines reportText).foldl parseStep
    (none, emptySections)).2

/-- Chunk selection of `extract_information`: `chunks[:3]`. -/
def take3Chunks (chunks : List PyStr) : List PyStr := chunks.take 3

/-- Control flow of `extract_information`: chunk the text, submit at most the
first 3 chunks to the extraction oracle, silently drop failed chunks, and
merge the survivors. The oracle returns `none` on a call failure or a JSON
parse failure of that chunk. -/
def extract_information (extractOracle : PyStr → Option Extraction)
    (splitText : PyStr → List PyStr) (text : PyStr) : Extraction :=
  merge_extractions ((take3Chunks (splitText text)).filterMap extractOracle)

/-- Control flow of `generate_report`: the result of the report LLM call is
parsed into sections on success; a call failure is re-raised unchanged. -/
def generate_report (invokeResult : Except PyStr PyStr) :
    Except PyStr Sections :=
  match invokeResult with
  | Except.error err => Except.error err
  | Except.ok content => Except.ok (parse_report_sections content)

/-- The per-request pipeline of the analyze endpoint: extraction (with local
per-chunk recovery), then the report-generation call, whose failure is the
only failure of the request. -/
def analyze (extractOracle : PyStr → Option Extraction)
    (splitText : PyStr → List PyStr)
    (reportInvoke : PyStr → Except PyStr PyStr)
    (dumpInfo : Extraction → PyStr) (text : PyStr) :
    Except PyStr (Extraction × Sections) :=
  let info := extract_information extractOracle splitText text
  match generate_report (reportInvoke (dumpInfo info)) with
  | Except.error err => Except.error err
  | Except.ok secs => Except.ok (info, secs)

/-- Sample extraction: company name with confidence 0.3 everywhere. -/
def eA : Extraction :=
  ⟨fun f => match f with
    | Field.company_name => some "Alpha Corp".data
    | _ => none,
   fun _ => some ⟨3, 10, by decide, by decide⟩⟩

/-- Sample extraction: company name with confidence 0.9 everywhere. -/
def eB : Extraction :=
  ⟨fun f => match f with
    | Field.company_name => some "Beta Inc".data
    | _ => none,
   fun _ => some ⟨9, 10, by decide, by decide⟩⟩

/-- Sample extraction: company name present, confidence map missing. -/
def eNoConf : Extraction :=
  ⟨fun f => match f with
    | Field.company_name => some "Acme".data
    | _ => none,
   fun _ => none⟩

/-- Sample extraction: every field and every confidence missing. -/
def eEmpty : Extraction := ⟨fun _ => none, fun _ => none⟩

/-- Sample extraction: first-seen tie candidate with confidence 0.5. -/
def eTie1 : Extraction :=
  ⟨fun f => match f with
    | Field.company_name => some "First".data
    | _ => none,
   fun _ => some half⟩

/-- Sample extraction: later tie candidate with confidence 0.5. -/
def eTie2 : Extraction :=
  ⟨fun f => match f with
    | Field.company_name => some "Second".data
    | _ => none,
   fun _ => some half⟩

end ExecSummary

namespace ExecSummary

lemma acceptableValue_some {v : Option PyStr} (h : acceptableValue v = true) :
    ∃ s, v = some s ∧ s ≠ [] := by
  cases v with
  | none => simp [acceptableValue] at h
  | some s =>
    refine ⟨s, rfl, ?_⟩
    intro hs
    subst hs
    simp [acceptableValue] at h

lemma claim_foldl_eq_of_total (d : ℚ) (f : Field) :
    ∀ (rs : List Extraction) (b : Option PyStr × ℚ),
      (∀ e ∈ rs, (e.confidence_scores f).isSome = true) →
      rs.foldl (claimMergeStep d f) b = rs.foldl (mergeStep f) b := by
  intro rs
  induction rs with
  | nil => intro b _; rfl
  | cons e rs ih =>
    intro b h
    have he : (e.confidence_scores f).isSome = true :=
      h e (List.mem_cons_self ..)
    obtain ⟨c, hc⟩ := Option.isSome_iff_exists.mp he
    have hstep : claimMergeStep d f b e = mergeStep f b e := by
      simp [claimMergeStep, mergeStep, confLookup, hc]
    rw [List.foldl_cons, List.foldl_cons, hstep]
    exact ih _ (fun x hx => h x (List.mem_cons_of_mem _ hx))

lemma claim_foldl_none_conf (d : ℚ) (f : Field) :
    ∀ (rs : List Extraction) (b : Option PyStr × ℚ), (b.1 = none → b.2 = 0) →
      (rs.foldl (claimMergeStep d f) b).1 = none →
      (rs.foldl (claimMergeStep d f) b).2 = 0 := by
  intro rs
  induction rs with
  | nil => intro b hb; exact hb
  | cons e rs ih =>
    intro b hb
    rw [List.foldl_cons]
    apply ih
    intro h1
    by_cases hcond :
        acceptableValue (e.values f) ∧ b.2 < (e.confidence_scores f).getD d
    · rw [claimMergeStep, if_pos hcond] at h1
      obtain ⟨s, hs, -⟩ := acceptableValue_some hcond.1
      rw [hs] at h1
      exact absurd h1 (by simp)
    · rw [claimMergeStep, if_neg hcond] at h1 ⊢
      exact hb h1

lemma claimMergeBest_none (d : ℚ) (f : Field) (rs : List Extraction)
    (h : (claimMergeBest d f rs).1 = none) : (claimMergeBest d f rs).2 = 0 :=
  claim_foldl_none_conf d f rs (none, 0) (fun _ => rfl) h

/-- C1: for two or more extraction results and each field independently, the
merge scans the results in order, accepting a candidate exactly when it is
non-empty, lacks the case-insensitive substring "not provided", and its
confidence strictly exceeds the best accepted so far (initial best 0); the
merged field carries the accepted candidate and its confidence, and resolves
to the sentinel with confidence 0 when no candidate is accepted.  Stated for
results whose confidence maps carry an entry for every field, as the claim
speaks of each candidate's own confidence. -/
theorem merge_scan_matches_claim (rs : List Extraction) (hlen : 2 ≤ rs.length)
    (hconf : ∀ e ∈ rs, ∀ f : Field, (e.confidence_scores f).isSome = true)
    (f : Field) :
    (merge_extractions rs).values f
      = some (pyOr (claimMergeBest 0 f rs).1 sentinel)
    ∧ (merge_extractions rs).confidence_scores f
      = some (claimMergeBest 0 f rs).2
    ∧ ((claimMergeBest 0 f rs).1 = none →
        (merge_extractions rs).values f = some sentinel
        ∧ (merge_extractions rs).confidence_scores f = some 0) := by
  rcases rs with _ | ⟨a, _ | ⟨b, t⟩⟩
  · exact absurd hlen (by simp)
  · exact absurd hlen (by simp)
  · have hbest : claimMergeBest 0 f (a :: b :: t) = mergeBest f (a :: b :: t) :=
      claim_foldl_eq_of_total 0 f _ _ (fun e he => hconf e he f)
    refine ⟨?_, ?_, ?_⟩
    · show some (pyOr (mergeBest f (a :: b :: t)).1 sentinel) = _
      rw [hbest]
    · show some (mergeBest f (a :: b :: t)).2 = _
      rw [hbest]
    · intro hnone
      have h2 := claimMergeBest_none 0 f (a :: b :: t) hnone
      constructor
      · show some (pyOr (mergeBest f (a :: b :: t)).1 sentinel) = some sentinel
        rw [← hbest, hnone]
        rfl
      · show some (mergeBest f (a :: b :: t)).2 = some 0
        rw [← hbest, h2]

/-- Witness for the C1 theorem at a concrete two-result input. -/
theorem merge_scan_matches_claim_witness :
    (merge_extractions [eA, eB]).values Field.company_name
      = some (pyOr (claimMergeBest 0 Field.company_name [eA, eB]).1 sentinel) :=
  (merge_scan_matches_claim [eA, eB] (by decide) (by decide)
    Field.company_name).1

/-- C2 counterexample: the code reads a missing confidence entry as 0.5, not
0.0.  With the claimed default 0 the candidate "Acme" could never be accepted
(its confidence would not strictly exceed the initial best 0) and the field
would resolve to the sentinel with confidence 0; the code instead accepts it
and records confidence one half. -/
theorem merge_missing_conf_default_cex :
    (merge_extractions [eNoConf, eEmpty]).values Field.company_name
      = some "Acme".data
    ∧ (merge_extractions [eNoConf, eEmpty]).confidence_scores Field.company_name
      = some half
    ∧ claimMergeBest 0 Field.company_name [eNoConf, eEmpty] = (none, 0)
    ∧ half ≠ 0 := by decide

/-- C2 amended: a missing confidence map or entry is read as the default 0.5,
the scan otherwise proceeds as described, and the merge is total. -/
theorem merge_missing_conf_default_half (rs : List Extraction)
    (hlen : 2 ≤ rs.length) (f : Field) :
    (∀ e : Extraction, e.confidence_scores f = none → confLookup e f = half)
    ∧ (merge_extractions rs).values f
      = some (pyOr (claimMergeBest half f rs).1 sentinel)
    ∧ (merge_extractions rs).confidence_scores f
      = some (claimMergeBest half f rs).2 := by
  refine ⟨fun e he => by simp [confLookup, he], ?_, ?_⟩
  · rcases rs with _ | ⟨a, _ | ⟨b, t⟩⟩
    · exact absurd hlen (by simp)
    · exact absurd hlen (by simp)
    · rfl
  · rcases rs with _ | ⟨a, _ | ⟨b, t⟩⟩
    · exact absurd hlen (by simp)
    · exact absurd hlen (by simp)
    · rfl

/-- Witness for the amended C2 theorem at a concrete two-result input. -/
theorem merge_missing_conf_default_half_witness :
    (merge_extractions [eNoConf, eEmpty]).confidence_scores Field.company_name
      = some (claimMergeBest half Field.company_name [eNoConf, eEmpty]).2 :=
  (merge_missing_conf_default_half [eNoConf, eEmpty] (by decide)
    Field.company_name).2.2

/-- C3 counterexample: on the empty input sequence the merge leaves every
field missing (None) and the confidence map empty; no field equals the
sentinel string and no confidence entry equals 0. -/
theorem merge_empty_cex :
    (merge_extractions ([] : List Extraction)).values Field.company_name = none
    ∧ (merge_extractions ([] : List Extraction)).values Field.company_name
      ≠ some sentinel
    ∧ (merge_extractions ([] : List Extraction)).confidence_scores
        Field.company_name ≠ some 0 := by decide

/-- C3 amended: on the empty input sequence the merge produces a result in
which every one of the eleven fields is missing (None) and the confidence map
has no entries, without error. -/
theorem merge_empty_all_missing :
    ∀ f : Field, (merge_extractions []).values f = none
      ∧ (merge_extractions []).confidence_scores f = none :=
  fun _ => ⟨rfl, rfl⟩

/-- C4 counterexample: with exactly one result, a field missing from the
result stays missing (None); it is not coerced to the sentinel. -/
theorem merge_single_cex :
    (merge_extractions [eEmpty]).values Field.company_name = none
    ∧ (merge_extractions [eEmpty]).values Field.company_name
      ≠ some sentinel := by decide

/-- C4 amended: a single result is passed through entirely unchanged; fields
missing from it remain missing (None) rather than becoming the sentinel. -/
theorem merge_single_passthrough : ∀ e : Extraction, merge_extractions [e] = e :=
  fun _ => rfl

/-- C5: the comparison is strictly greater, so a later candidate whose
confidence does not exceed the current best (in particular an equal-confidence
candidate) never replaces the earlier one; with two acceptable
equal-confidence candidates the merge keeps the first-seen value and the
shared confidence. -/
theorem merge_tie_first_seen :
    (∀ (xs : List Extraction) (e : Extraction) (ys : List Extraction)
        (f : Field), confLookup e f ≤ (mergeBest f xs).2 →
        mergeBest f (xs ++ e :: ys) = mergeBest f (xs ++ ys))
    ∧ (∀ (e1 e2 : Extraction) (f : Field) (c : ℚ),
        acceptableValue (e1.values f) = true →
        confLookup e1 f = c → confLookup e2 f = c → 0 < c →
        (merge_extractions [e1, e2]).values f = e1.values f
        ∧ (merge_extractions [e1, e2]).confidence_scores f = some c) := by
  constructor
  · intro xs e ys f h
    unfold mergeBest at h ⊢
    have hb : mergeStep f (List.foldl (mergeStep f) (none, 0) xs) e
        = List.foldl (mergeStep f) (none, 0) xs := by
      rw [mergeStep, if_neg]
      intro hc
      exact absurd hc.2 (not_lt.mpr h)
    rw [List.foldl_append, List.foldl_append, List.foldl_cons, hb]
  · intro e1 e2 f c hacc h1 h2 hc
    obtain ⟨s, hs, hsne⟩ := acceptableValue_some hacc
    have step1 : mergeStep f (none, 0) e1 = (e1.values f, c) := by
      rw [mergeStep, if_pos ⟨hacc, by rw [h1]; exact hc⟩, h1]
    have step2 : mergeStep f (e1.values f, c) e2 = (e1.values f, c) := by
      rw [mergeStep, if_neg]
      rintro ⟨-, hlt⟩
      rw [h2] at hlt
      exact lt_irrefl c hlt
    have hfold : mergeBest f [e1, e2] = (e1.values f, c) := by
      unfold mergeBest
      rw [List.foldl_cons, List.foldl_cons, List.foldl_nil, step1, step2]
    constructor
    · show some (pyOr (mergeBest f [e1, e2]).1 sentinel) = e1.values f
      rw [hfold, hs]
      show some (pyOr (some s) sentinel) = some s
      rw [pyOr, if_neg hsne]
    · show some (mergeBest f [e1, e2]).2 = some c
      rw [hfold]

/-- Witness for the C5 theorem: equal-confidence candidates at 0.5, the
first-seen value wins. -/
theorem merge_tie_first_seen_witness :
    mergeBest Field.company_name ([eTie1] ++ eTie2 :: [])
      = mergeBest Field.company_name ([eTie1] ++ [])
    ∧ (merge_extractions [eTie1, eTie2]).values Field.company_name
      = eTie1.values Field.company_name :=
  ⟨merge_tie_first_seen.1 [eTie1] eTie2 [] Field.company_name (by decide),
   (merge_tie_first_seen.2 eTie1 eTie2 Field.company_name half (by decide)
     rfl rfl (by decide)).1⟩

end ExecSummary
namespace ExecSummary

lemma parseStep_header (st : Option SectionKey × Sections) (line : PyStr)
    (k : SectionKey) (h : findTrigger (pyLower line) = some k) :
    parseStep st line = (some k, st.2) := by
  simp [parseStep, h]

lemma parseStep_body (st : Option SectionKey × Sections) (line : PyStr)
    (k : SectionKey) (h1 : st.1 = some k)
    (hn : findTrigger (pyLower line) = none) (hs : pyStrip line ≠ []) :
    parseStep st line = (some k, appendSec st.2 k (line ++ ['\x0a'])) := by
  simp [parseStep, hn, h1, hs]

lemma parseStep_blank (st : Option SectionKey × Sections) (line : PyStr)
    (hn : findTrigger (pyLower line) = none) (hs : pyStrip line = []) :
    parseStep st line = (st.1, st.2) := by
  rcases st with ⟨cur, secs⟩
  cases cur <;> simp [parseStep, hn, hs]

lemma findTrigger_nature (l : PyStr) (h : containsSub trigNature l = true) :
    findTrigger l = some SectionKey.nature_and_state := by
  simp [findTrigger, h]

lemma findTrigger_market (l : PyStr) (h1 : containsSub trigNature l = false)
    (h2 : containsSub trigMarket l = true) :
    findTrigger l = some SectionKey.market_need_and_size := by
  simp [findTrigger, h1, h2]

lemma findTrigger_roi (l : PyStr) (h1 : containsSub trigNature l = false)
    (h2 : containsSub trigMarket l = false)
    (h3 : containsSub trigRoi l = true) :
    findTrigger l = some SectionKey.roi_elements := by
  simp [findTrigger, h1, h2, h3]

lemma findTrigger_management (l : PyStr)
    (h1 : containsSub trigNature l = false)
    (h2 : containsSub trigMarket l = false)
    (h3 : containsSub trigRoi l = false)
    (h4 : containsSub trigManagement l = true) :
    findTrigger l = some SectionKey.management_team_strength := by
  simp [findTrigger, h1, h2, h3, h4]

lemma foldl_no_trigger : ∀ (lines : List PyStr) (s : Sections),
    (∀ line ∈ lines, findTrigger (pyLower line) = none) →
    lines.foldl parseStep (none, s) = (none, s) := by
  intro lines
  induction lines with
  | nil => intro s _; rfl
  | cons l ls ih =>
    intro s h
    have hl := h l (List.mem_cons_self ..)
    have hstep : parseStep (none, s) l = (none, s) := by
      simp [parseStep, hl]
    rw [List.foldl_cons, hstep]
    exact ih s (fun x hx => h x (List.mem_cons_of_mem _ hx))

/-- C6: the parser folds over the lines with an initially unset pointer; a
line containing a trigger substring (tested on the lowered line, in the fixed
priority order nature-and-state, market-need, roi, management) sets the
pointer and is never appended; a non-blank non-trigger line with the pointer
set is appended to the current section; a blank or pointerless line changes
nothing; sections are trimmed at the end, and on the spec example the parser
yields exactly the stated sections. -/
theorem parser_scan_and_example :
    (∀ (st : Option SectionKey × Sections) (line : PyStr) (k : SectionKey),
        findTrigger (pyLower line) = some k → parseStep st line = (some k, st.2))
    ∧ (∀ (st : Option SectionKey × Sections) (line : PyStr) (k : SectionKey),
        st.1 = some k → findTrigger (pyLower line) = none → pyStrip line ≠ [] →
        parseStep st line = (some k, appendSec st.2 k (line ++ ['\x0a'])))
    ∧ (∀ (st : Option SectionKey × Sections) (line : PyStr),
        findTrigger (pyLower line) = none → pyStrip line = [] →
        parseStep st line = (st.1, st.2))
    ∧ (∀ l : PyStr, containsSub trigNature l = true →
        findTrigger l = some SectionKey.nature_and_state)
    ∧ (∀ l : PyStr, containsSub trigNature l = false →
        containsSub trigMarket l = true →
        findTrigger l = some SectionKey.market_need_and_size)
    ∧ (∀ l : PyStr, containsSub trigNature l = false →
        containsSub trigMarket l = false → containsSub trigRoi l = true →
        findTrigger l = some SectionKey.roi_elements)
    ∧ (∀ l : PyStr, containsSub trigNature l = false →
        containsSub trigMarket l = false → containsSub trigRoi l = false →
        containsSub trigManagement l = true →
        findTrigger l = some SectionKey.management_team_strength)
    ∧ parse_report_sections "Nature and State\nGrowing fast\n\nROI\nHigh return\n".data
        = ⟨"Growing fast".data, [], "High return".data, []⟩ :=
  ⟨parseStep_header, parseStep_body, parseStep_blank, findTrigger_nature,
   findTrigger_market, findTrigger_roi, findTrigger_management, by decide⟩

/-- Witness for the C6 theorem: a header line reassigns the pointer without
being appended, and a body line is appended to the current section. -/
theorem parser_scan_and_example_witness :
    parseStep (some SectionKey.roi_elements, emptySections) "Market Need".data
      = (some SectionKey.market_need_and_size, emptySections)
    ∧ parseStep (some SectionKey.roi_elements, emptySections) "High return".data
      = (some SectionKey.roi_elements,
          appendSec emptySections SectionKey.roi_elements
            ("High return".data ++ ['\x0a'])) :=
  ⟨parser_scan_and_example.1 _ _ _ (by decide),
   parser_scan_and_example.2.1 _ _ _ rfl (by decide) (by decide)⟩

/-- C7: a body line containing the trigger substring "management" (and none of
the higher-priority triggers) reassigns the pointer to the management section
from any state, is treated as a header (never appended), and subsequent
non-trigger non-blank lines accumulate in the management section, as on the
concrete four-line example. -/
theorem parser_body_trigger_reassigns :
    (∀ (st : Option SectionKey × Sections) (line : PyStr),
        containsSub trigNature (pyLower line) = false →
        containsSub trigMarket (pyLower line) = false →
        containsSub trigRoi (pyLower line) = false →
        containsSub trigManagement (pyLower line) = true →
        parseStep st line = (some SectionKey.management_team_strength, st.2))
    ∧ parse_report_sections
        "Elements of potential ROI\nHigh return\nWe need strong management going forward\nSolid team\n".data
        = ⟨[], [], "High return".data, "Solid team".data⟩ :=
  ⟨fun st line h1 h2 h3 h4 =>
    parseStep_header st line _ (findTrigger_management _ h1 h2 h3 h4),
   by decide⟩

/-- Witness for the C7 theorem: the quirk line reassigns the pointer away from
the ROI section. -/
theorem parser_body_trigger_reassigns_witness :
    parseStep (some SectionKey.roi_elements, emptySections)
        "We need strong management going forward".data
      = (some SectionKey.management_team_strength, emptySections) :=
  parser_body_trigger_reassigns.1 _ _ (by decide) (by decide) (by decide)
    (by decide)

/-- C8: when no line of the input contains any trigger substring, the pointer
is never set, nothing is appended, and all four sections come back as empty
strings, with no error. -/
theorem parser_no_trigger_all_empty (text : PyStr)
    (h : ∀ line ∈ pySplitLines text, findTrigger (pyLower line) = none) :
    parse_report_sections text = emptySections := by
  unfold parse_report_sections
  rw [foldl_no_trigger _ _ h]
  rfl

/-- Witness for the C8 theorem at the empty string. -/
theorem parser_no_trigger_all_empty_witness :
    parse_report_sections [] = emptySections :=
  parser_no_trigger_all_empty [] (by decide)

/-- C9: the request pipeline fails exactly when the report-generation call
fails: per-chunk extraction failures are dropped locally and never fail the
request (the extraction oracle may fail on every chunk), while a
report-generation failure propagates unchanged, with no partial-report
fallback; on success the pipeline returns the merged information and the
parsed report. -/
theorem analyze_fails_iff_report_call_fails
    (eo : PyStr → Option Extraction) (sp : PyStr → List PyStr)
    (ro : PyStr → Except PyStr PyStr) (dump : Extraction → PyStr)
    (text : PyStr) :
    (∀ err, analyze eo sp ro dump text = Except.error err ↔
        ro (dump (extract_information eo sp text)) = Except.error err)
    ∧ (∀ s, ro (dump (extract_information eo sp text)) = Except.ok s →
        analyze eo sp ro dump text
          = Except.ok (extract_information eo sp text,
              parse_report_sections s)) := by
  constructor
  · intro err
    cases hro : ro (dump (extract_information eo sp text)) with
    | error e => simp [analyze, generate_report, hro]
    | ok s => simp [analyze, generate_report, hro]
  · intro s hs
    simp [analyze, generate_report, hs]

/-- Witness for the C9 theorem: with every per-chunk extraction failing and
the report call succeeding, the request still succeeds. -/
theorem analyze_fails_iff_report_call_fails_witness :
    analyze (fun _ => none) (fun t => [t]) (fun _ => Except.ok [])
        (fun _ => []) []
      = Except.ok (extract_information (fun _ => none) (fun t => [t]) [],
          parse_report_sections []) :=
  (analyze_fails_iff_report_call_fails (fun _ => none) (fun t => [t])
    (fun _ => Except.ok []) (fun _ => []) []).2 [] rfl

/-- C10: the orchestrator submits only the first three chunks of the split
text to the extraction oracle, so the number of extraction calls never
exceeds 3 regardless of how many chunks the splitter produces. -/
theorem extraction_calls_bounded_by_three (eo : PyStr → Option Extraction)
    (sp : PyStr → List PyStr) (text : PyStr) :
    (take3Chunks (sp text)).length ≤ 3
    ∧ extract_information eo sp text
      = merge_extractions ((take3Chunks (sp text)).filterMap eo) := by
  refine ⟨?_, rfl⟩
  unfold take3Chunks
  rw [List.length_take]
  exact min_le_left _ _

end ExecSummary
